import Mathlib

/-!
Verification development for the meteor-up core: the build/packaging
pipeline (buildApp, buildMeteorApp, archiveIt), the configuration and
session resolver (MupAPI: getConfig, getSettings, getSessions,
withSessions, loadSessions, hasMeteorPackage) and the servers-section
validator (validateServers).  JavaScript functions are shallowly
embedded as pure Lean functions; file-system reads, path resolution and
the JSON parser/serializer of the host platform are passed in as
explicit function parameters; process-terminating failures are embedded
as Except errors; event-driven code is embedded as a step function over
explicit event lists.
-/

namespace Mup

/-- JSON-like values, used for settings documents, configuration values
and mobile settings. -/
inductive JVal where
  | jnull : JVal
  | jbool : Bool → JVal
  | jnum : Int → JVal
  | jstr : String → JVal
  | jarr : List JVal → JVal
  | jobj : List (String × JVal) → JVal
deriving Repr

/-- JavaScript truthiness of a JSON-like value: null, false, 0 and the
empty string are falsy; arrays and objects are always truthy. -/
def JVal.truthy : JVal → Bool
  | .jnull => false
  | .jbool b => b
  | .jnum n => n != 0
  | .jstr s => s != ""
  | .jarr _ => true
  | .jobj _ => true

/-- JavaScript truthiness of an optional string field: the field is
truthy when present and nonempty. -/
def optTruthy : Option String → Bool
  | some s => s != ""
  | none => false

@[simp] theorem optTruthy_none : optTruthy none = false := rfl

@[simp] theorem optTruthy_some (s : String) : optTruthy (some s) = (s != "") := rfl

section AList

variable {α : Type}

/-- Lookup in a JavaScript-object-like association list (obj[key]). -/
def alLookup : List (String × α) → String → Option α
  | [], _ => none
  | (k, v) :: rest, a => if k = a then some v else alLookup rest a

/-- Assignment obj[key] = value on a JavaScript-object-like association
list: replaces the value in place when the key is present, otherwise
appends the new entry (insertion order is preserved). -/
def alInsert : List (String × α) → String → α → List (String × α)
  | [], k, v => [(k, v)]
  | (k', v') :: rest, k, v =>
    if k' = k then (k, v) :: rest else (k', v') :: alInsert rest k v

/-- Keys of an association list, in insertion order. -/
def alKeys (l : List (String × α)) : List String := l.map Prod.fst

@[simp] theorem alLookup_nil (a : String) : alLookup ([] : List (String × α)) a = none := rfl

@[simp] theorem alKeys_nil : alKeys ([] : List (String × α)) = [] := rfl

@[simp] theorem alKeys_cons (k : String) (v : α) (l : List (String × α)) :
    alKeys ((k, v) :: l) = k :: alKeys l := rfl

theorem alLookup_alInsert (l : List (String × α)) (k a : String) (v : α) :
    alLookup (alInsert l k v) a = if k = a then some v else alLookup l a := by
  induction l with
  | nil => simp [alInsert, alLookup]
  | cons hd tl ih =>
    obtain ⟨k', v'⟩ := hd
    by_cases hk : k' = k
    · subst hk
      by_cases ha : k' = a <;> simp [alInsert, alLookup, ha]
    · simp only [alInsert, if_neg hk, alLookup, ih]
      by_cases ha : k' = a <;> by_cases hka : k = a
      · exact absurd (ha.trans hka.symm) hk
      · simp [ha, hka]
      · simp [ha, hka]
      · simp [ha, hka]

theorem mem_alKeys_alInsert (l : List (String × α)) (k a : String) (v : α) :
    a ∈ alKeys (alInsert l k v) ↔ a = k ∨ a ∈ alKeys l := by
  induction l with
  | nil => simp [alInsert, alKeys]
  | cons hd tl ih =>
    obtain ⟨k', v'⟩ := hd
    by_cases hk : k' = k
    · subst hk
      simp [alInsert]
    · simp only [alInsert, if_neg hk, alKeys_cons, List.mem_cons, ih]
      tauto

theorem nodup_alKeys_alInsert (l : List (String × α)) (k : String) (v : α)
    (h : (alKeys l).Nodup) : (alKeys (alInsert l k v)).Nodup := by
  induction l with
  | nil => simp [alInsert, alKeys]
  | cons hd tl ih =>
    obtain ⟨k', v'⟩ := hd
    simp only [alKeys_cons, List.nodup_cons] at h
    by_cases hk : k' = k
    · subst hk
      simpa [alInsert] using h
    · simp only [alInsert, if_neg hk, alKeys_cons, List.nodup_cons]
      refine ⟨fun hmem => ?_, ih h.2⟩
      rcases (mem_alKeys_alInsert tl k k' v).1 hmem with h1 | h1
      · exact hk h1
      · exact h.1 h1

theorem alLookup_isSome_iff_mem (l : List (String × α)) (a : String) :
    (alLookup l a).isSome = true ↔ a ∈ alKeys l := by
  induction l with
  | nil => simp [alLookup, alKeys]
  | cons hd tl ih =>
    obtain ⟨k, v⟩ := hd
    by_cases hk : k = a
    · subst hk
      simp [alLookup]
    · have hak : ¬a = k := fun h => hk h.symm
      simp [alLookup, if_neg hk, ih, hak]

end AList

/-! ## Build pipeline: argument construction (buildMeteorApp, lines 54-107)

The argument list is built by sequential pushes; each conditional push
block of the source is one list segment below, concatenated in source
order by buildArgs.  JSON.stringify is an external collaborator and is
passed in as the stringify parameter. -/

/-- Build options consumed by buildMeteorApp (spec section 3,
BuildOptions). -/
structure BuildOptions where
  buildLocation : String
  executable : Option String := none
  debug : Bool := false
  mobileSettings : Option JVal := none
  serverOnly : Bool := false
  server : Option String := none
  allowIncompatibleUpdate : Bool := false
deriving Repr

/-- Always-present arguments: build, the directory flag and the fixed
Linux x86_64 architecture flag (lines 56-62). -/
def baseBuildArgs (bo : BuildOptions) : List String :=
  ["build", "--directory", bo.buildLocation, "--architecture", "os.linux.x86_64"]

/-- Conditional debug flag (lines 64-66). -/
def debugArgs (bo : BuildOptions) : List String :=
  if bo.debug then ["--debug"] else []

/-- Truthiness of buildOptions.mobileSettings. -/
def msTruthy (bo : BuildOptions) : Bool :=
  match bo.mobileSettings with
  | some v => v.truthy
  | none => false

/-- Explicit mobile settings flag with the JSON serialization of the
configured object (lines 68-71). -/
def mobileSettingsArgs (stringify : JVal → String) (bo : BuildOptions) : List String :=
  match bo.mobileSettings with
  | some v => if v.truthy then ["--mobile-settings", stringify v] else []
  | none => []

/-- Server-only flag, or - only when mobile settings were not already
supplied - the default mobile-settings flag pointing at the settings
file inside the app path (lines 73-78). -/
def serverOnlyArgs (appPath : String) (bo : BuildOptions) : List String :=
  if bo.serverOnly then ["--server-only"]
  else if msTruthy bo then []
  else ["--mobile-settings", appPath ++ "/settings.json"]

/-- Target server flag (lines 80-83). -/
def serverTargetArgs (bo : BuildOptions) : List String :=
  match bo.server with
  | some s => if s != "" then ["--server", s] else []
  | none => []

/-- Allow-incompatible-update flag (lines 85-87). -/
def allowArgs (bo : BuildOptions) : List String :=
  if bo.allowIncompatibleUpdate then ["--allow-incompatible-update"] else []

/-- Full argument list built by buildMeteorApp before the Windows
rewrite, in source push order (lines 56-87). -/
def buildArgs (stringify : JVal → String) (appPath : String) (bo : BuildOptions) : List String :=
  baseBuildArgs bo ++ debugArgs bo ++ mobileSettingsArgs stringify bo ++
    serverOnlyArgs appPath bo ++ serverTargetArgs bo ++ allowArgs bo

/-- Windows-like platform test: /^win/.test(process.platform) (line 89),
embedded as a character-level prefix test. -/
def isWin (platform : String) : Bool := "win".toList.isPrefixOf platform.toList

/-- The system command shell: process.env.comspec falling back to
cmd.exe (line 93). -/
def comspecOr (comspec : Option String) : String :=
  match comspec with
  | some c => if c != "" then c else "cmd.exe"
  | none => "cmd.exe"

/-- Executable and argument list actually spawned by buildMeteorApp
(lines 55, 89-95, 109): the configured executable (default meteor), or
on a Windows-like platform the command shell with /c and the literal
name meteor prepended to the argument list. -/
def buildCommand (platform : String) (comspec : Option String)
    (stringify : JVal → String) (appPath : String) (bo : BuildOptions) :
    String × List String :=
  let executable := match bo.executable with
    | some e => if e != "" then e else "meteor"
    | none => "meteor"
  let args := buildArgs stringify appPath bo
  if isWin platform then (comspecOr comspec, ["/c", "meteor"] ++ args)
  else (executable, args)

/-! ## Session resolver (mup-api.js, lines 133-222)

File reads (fs.readFileSync as fsRead, fs.existsSync as fsExists), the
path resolver (resolvePath as resolve) and the SSH agent socket
environment variable (process.env.SSH_AUTH_SOCK as sock) are explicit
parameters.  process.exit(1) is embedded as an Except error. -/

/-- SSH options attached to a session (the opts.ssh object; the
servers schema allows a port, and loadSessions may add an agent). -/
structure SshOpts where
  port : Option Int := none
  agent : Option String := none
deriving Repr, DecidableEq

/-- One named server entry of the servers configuration section
(spec section 3, ServerEntry).  All fields are optional at the source
level; validation and session resolution decide what is usable. -/
structure ServerInfo where
  host : Option String := none
  username : Option String := none
  pem : Option String := none
  password : Option String := none
  opts : Option SshOpts := none
deriving Repr, DecidableEq

/-- Credential part of a session: the auth object built by
loadSessions (username plus at most one of pem contents / password). -/
structure Auth where
  username : Option String := none
  pem : Option String := none
  password : Option String := none
deriving Repr, DecidableEq

/-- Opaque session handle: nodemiral.session(host, auth, opts) is an
external collaborator, so a session is modelled by the exact arguments
handed to it. -/
structure Session where
  host : Option String
  auth : Auth
  ssh : SshOpts
deriving Repr, DecidableEq

/-- Fatal, process-terminating failures of the session resolver. -/
inductive Fatal where
  | pemReadError : String → String → Fatal
  | noCredential : String → Fatal
deriving Repr, DecidableEq

/-- Usability of the SSH agent socket: the environment value must be
truthy and the path must exist on disk
(sshAgent and fs.existsSync(sshAgent), line 209). -/
def agentUsable (sock : Option String) (fsExists : String → Bool) : Bool :=
  match sock with
  | some s => s != "" && fsExists s
  | none => false

/-- Credential chain after the pem test failed: password, then agent
socket, then fatal failure naming the server (lines 207-217). -/
def afterPem (fsExists : String → Bool) (sock : Option String)
    (name : String) (info : ServerInfo) (ssh0 : SshOpts) : Except Fatal Session :=
  if optTruthy info.password then
    .ok { host := info.host,
          auth := { username := info.username, password := info.password },
          ssh := ssh0 }
  else if agentUsable sock fsExists then
    .ok { host := info.host,
          auth := { username := info.username },
          ssh := { ssh0 with agent := sock } }
  else .error (.noCredential name)

/-- Session construction for one server entry (loadSessions loop body,
lines 182-220): a truthy pem is read eagerly and embedded, an
unreadable pem is fatal naming the server and the resolved path,
otherwise the password, then the agent socket, then fatal failure. -/
def loadSession (resolve : String → String) (fsRead : String → Option String)
    (fsExists : String → Bool) (sock : Option String)
    (name : String) (info : ServerInfo) : Except Fatal Session :=
  let ssh0 : SshOpts := info.opts.getD {}
  match info.pem with
  | some p =>
    if p != "" then
      match fsRead (resolve p) with
      | some contents =>
        .ok { host := info.host,
              auth := { username := info.username, pem := some contents },
              ssh := ssh0 }
      | none => .error (.pemReadError name (resolve p))
    else afterPem fsExists sock name info ssh0
  | none => afterPem fsExists sock name info ssh0

/-- Full session map built once from config.servers
(loadSessions, lines 171-222): one session per entry in order, first
fatal entry aborts the process. -/
def loadSessions (resolve : String → String) (fsRead : String → Option String)
    (fsExists : String → Bool) (sock : Option String)
    (servers : List (String × ServerInfo)) :
    Except Fatal (List (String × Session)) :=
  servers.foldlM
    (fun acc p => do
      let s ← loadSession resolve fsRead fsExists sock p.1 p.2
      pure (alInsert acc p.1 s))
    []

/-- One module configuration section, as far as the resolver reads it:
the keys of its servers reference object. -/
structure ModuleConfig where
  servers : List String
deriving Repr, DecidableEq

/-- Loaded configuration as seen by the session resolver: the servers
section plus the module-keyed sections. -/
structure Config where
  servers : List (String × ServerInfo) := []
  sections : List (String × ModuleConfig) := []
deriving Repr, DecidableEq

/-- Inner loop of pickSessions for one module section: every referenced
server name present in the full session map is copied into the
accumulator (lines 157-165). -/
def pickFromModule (full : List (String × Session)) (names : List String)
    (acc : List (String × Session)) : List (String × Session) :=
  names.foldl
    (fun a n =>
      match alLookup full n with
      | some s => alInsert a n s
      | none => a)
    acc

/-- Outer loop body of pickSessions for one requested module name
(lines 151-166): a module without a config section contributes
nothing. -/
def pickStep (cfg : Config) (full : List (String × Session))
    (acc : List (String × Session)) (m : String) : List (String × Session) :=
  match alLookup cfg.sections m with
  | none => acc
  | some mc => pickFromModule full mc.servers acc

/-- Module-scoped subset of the full session map (pickSessions body
after the lazy load, lines 149-168). -/
def pickSessions (cfg : Config) (full : List (String × Session))
    (modules : List String) : List (String × Session) :=
  modules.foldl (pickStep cfg full) []

/-- getSessions (lines 133-136): the values of the picked mapping, in
key order. -/
def getSessions (cfg : Config) (full : List (String × Session))
    (modules : List String) : List Session :=
  (pickSessions cfg full modules).map Prod.snd

/-- Resolver state of a MupAPI instance: constructor fields plus the
lazily populated session map (constructor, lines 10-19; config is the
loaded configuration, since every session operation loads it first). -/
structure MupState where
  base : String
  args : List String
  config : Config
  sessions : Option (List (String × Session)) := none
  configPath : Option String := none
  settingsPath : Option String := none
  verbose : Bool := false
deriving Repr, DecidableEq

/-- Lazy one-time population of the session map
(pickSessions lines 145-147): when absent, loadSessions builds it and
the state caches it; when present, it is reused untouched. -/
def ensureSessions (resolve : String → String) (fsRead : String → Option String)
    (fsExists : String → Bool) (sock : Option String) (st : MupState) :
    Except Fatal (MupState × List (String × Session)) :=
  match st.sessions with
  | some full => .ok (st, full)
  | none =>
    match loadSessions resolve fsRead fsExists sock st.config.servers with
    | .ok full => .ok ({ st with sessions := some full }, full)
    | .error e => .error e

/-- withSessions (lines 138-142): a derived scoped view sharing every
constructor field of the (possibly just lazily loaded) base state, with
only the session map replaced by the module-scoped subset.  Returns the
base state after the call together with the view. -/
def withSessions (resolve : String → String) (fsRead : String → Option String)
    (fsExists : String → Bool) (sock : Option String) (st : MupState)
    (modules : List String) : Except Fatal (MupState × MupState) :=
  match ensureSessions resolve fsRead fsExists sock st with
  | .ok (st1, full) =>
    .ok (st1, { st1 with sessions := some (pickSessions st1.config full modules) })
  | .error e => .error e

/-- A sequence of withSessions calls on one base resolver, threading
the base state and collecting the produced scoped views. -/
def runSeq (resolve : String → String) (fsRead : String → Option String)
    (fsExists : String → Bool) (sock : Option String) (st : MupState) :
    List (List String) → Except Fatal (MupState × List MupState)
  | [] => .ok (st, [])
  | ms :: rest =>
    match withSessions resolve fsRead fsExists sock st ms with
    | .ok (st1, view) =>
      match runSeq resolve fsRead fsExists sock st1 rest with
      | .ok (stF, views) => .ok (stF, view :: views)
      | .error e => .error e
    | .error e => .error e

/-! ## Build pipeline events (buildApp, lines 35-52; event wiring of
buildMeteorApp, lines 116-121)

The spawned subprocess and the archiver completion are event sources;
buildApp is embedded as a step function over the events it observes.
process.exit(1) terminates the process, so a terminated state absorbs
every later event. -/

/-- Events observed by buildApp: a spawn-level error of the subprocess,
the close event carrying the exit code, and the completion callback of
archiveIt (which can only fire after archiveIt was invoked). -/
inductive ProcEvent where
  | spawnError : String → ProcEvent
  | close : Int → ProcEvent
  | archiveDone : Option String → ProcEvent
deriving Repr, DecidableEq

/-- State of the promise returned by buildApp. -/
inductive PromiseState where
  | pending
  | resolvedOk
  | rejected : String → PromiseState
deriving Repr, DecidableEq

/-- Observable state of one buildApp run. -/
structure BuildRun where
  archiveCalledOn : Option String := none
  exitedWith : Option Int := none
  errorLogs : Nat := 0
  promise : PromiseState := .pending
deriving Repr, DecidableEq

/-- One event step of buildApp: a spawn error is only logged
(lines 116-120); the close event with code 0 invokes archiveIt on
buildOptions.buildLocation while any other code terminates the process
(lines 43-50); the archiveIt completion callback settles the promise
once, with an error rejecting and success resolving (lines 36-42). -/
def buildStep (bo : BuildOptions) (st : BuildRun) (ev : ProcEvent) : BuildRun :=
  if st.exitedWith.isSome then st
  else
    match ev with
    | .spawnError _ => { st with errorLogs := st.errorLogs + 1 }
    | .close code =>
      if code = 0 then { st with archiveCalledOn := some bo.buildLocation }
      else { st with exitedWith := some 1 }
    | .archiveDone err =>
      if st.archiveCalledOn.isSome ∧ st.promise = .pending then
        match err with
        | none => { st with promise := .resolvedOk }
        | some m => { st with promise := .rejected m }
      else st

/-- A whole buildApp run over an observed event list. -/
def buildRun (bo : BuildOptions) (evs : List ProcEvent) : BuildRun :=
  evs.foldl (buildStep bo) {}

/-! ## Archiver completion (archiveIt, lines 124-146)

The destination stream close signal and the encoder error are the two
completion signals; both resolve one callback wrapped by underscore
once, and each signal is registered with .once so only its first
occurrence is delivered at all. -/

/-- Events delivered to archiveIt: the destination stream close signal
and an encoder error. -/
inductive ArchiveEvent where
  | streamClose : ArchiveEvent
  | encoderError : String → ArchiveEvent
deriving Repr, DecidableEq

/-- The callback wrapped by the once combinator of underscore
(line 125): only the first invocation reaches the underlying callback;
calls counts invocations of the underlying callback and firstArg
records the argument it received. -/
structure OnceCb where
  fired : Bool := false
  calls : Nat := 0
  firstArg : Option (Option String) := none
deriving Repr, DecidableEq

/-- Invocation of the once-wrapped callback with an optional error. -/
def onceCall (cb : OnceCb) (arg : Option String) : OnceCb :=
  if cb.fired then cb
  else { fired := true, calls := cb.calls + 1, firstArg := some arg }

/-- State of one archiveIt run: whether each .once registration already
consumed its event, and the wrapped callback. -/
structure ArchiveRun where
  closeConsumed : Bool := false
  errorConsumed : Bool := false
  cb : OnceCb := {}
deriving Repr, DecidableEq

/-- One event step of archiveIt: the stream close signal calls the
callback with no error (line 138); the encoder error logs and calls the
callback with the error (lines 140-143); each handler is registered
with .once so only the first event of its kind is delivered. -/
def archiveStep (st : ArchiveRun) (ev : ArchiveEvent) : ArchiveRun :=
  match ev with
  | .streamClose =>
    if st.closeConsumed then st
    else { st with closeConsumed := true, cb := onceCall st.cb none }
  | .encoderError m =>
    if st.errorConsumed then st
    else { st with errorConsumed := true, cb := onceCall st.cb (some m) }

/-- A whole archiveIt completion run over an observed event list. -/
def archiveRun (evs : List ArchiveEvent) : ArchiveRun :=
  evs.foldl archiveStep {}

/-! ## Servers section validation (validate/servers.js) -/

/-- One validation problem: message plus dotted path
(spec section 3, ValidationProblem). -/
structure Problem where
  message : String
  path : String
deriving Repr, DecidableEq

/-- Helper for the JavaScript String.indexOf: index of the first
position where the needle starts in the haystack. -/
def idxAux (needle : List Char) : List Char → Option Nat
  | [] => if needle = [] then some 0 else none
  | c :: rest =>
    if needle.isPrefixOf (c :: rest) then some 0
    else (idxAux needle rest).map (· + 1)

/-- JavaScript String.indexOf: first occurrence index, or -1. -/
def jsIndexOf (s sub : String) : Int :=
  match idxAux sub.toList s.toList with
  | some n => (n : Int)
  | none => -1

/-- Modelled from the spec: the schema engine (joi) and the validation
helpers of validate/utils.js (VALIDATE_OPTIONS, combineErrorDetails)
are not among the sources; per the spec the schema contributes
structural problems (required fields, allowed shapes) for each entry,
attributed to the offending field, and all problems are aggregated.
This model covers the required host and username of the schema in
validate/servers.js lines 6-18. -/
def schemaProblems (servers : List (String × ServerInfo)) : List Problem :=
  (if servers.isEmpty then [{ message := "must have at least 1 children", path := "" }] else [])
    ++ servers.foldr
      (fun p acc =>
        (if p.2.host.isNone then
          [{ message := "host is required", path := p.1 ++ ".host" }] else [])
        ++ (if p.2.username.isNone then
          [{ message := "username is required", path := p.1 ++ ".username" }] else [])
        ++ acc)
      []

/-- Custom public-key check of validateServers (lines 25-33): a truthy
pem whose first occurrence of .pub sits exactly four characters before
the end is reported as a public key path. -/
def pemPubProblems (servers : List (String × ServerInfo)) : List Problem :=
  servers.foldr
    (fun p acc =>
      (match p.2.pem with
      | some pem =>
        if pem != "" ∧ jsIndexOf pem ".pub" = (pem.length : Int) - 4 then
          [{ message := "Needs to be a path to a private key. The file extension .pub is used for public keys.",
             path := p.1 ++ ".pem" }]
        else []
      | none => [])
      ++ acc)
    []

/-- Modelled from the spec: addLocation of validate/utils.js is not
among the sources; per the spec it prefixes the path of each problem
with the section name. -/
def addLocation (details : List Problem) (location : String) : List Problem :=
  details.map fun d => { d with path := location ++ "." ++ d.path }

/-- validateServers (lines 20-36): schema problems followed by the
custom public-key problems, all prefixed with the section name. -/
def validateServers (servers : List (String × ServerInfo)) : List Problem :=
  addLocation (schemaProblems servers ++ pemPubProblems servers) "servers"

/-! ## Config and settings loaders (getConfig lines 78-101,
getSettings lines 103-131)

File reads, the module loader (require) and the JSON parser are
external collaborators passed in as function parameters; process.exit
is an Except error.  The memoization guards are the JavaScript
truthiness tests on the cached fields. -/

/-- Loader-facing state of a MupAPI instance: the constructor paths and
the two lazily populated caches (config as the value returned by
require, settings as the parsed JSON document). -/
structure LState where
  base : String
  configPath : Option String := none
  settingsPath : Option String := none
  config : Option JVal := none
  settings : Option JVal := none
deriving Repr

/-- Config file path resolution of getConfig (lines 80-86): a truthy
explicit config path is resolved and redefines base as its directory,
otherwise the conventional file inside the base directory is used. -/
def configFilePath (dirname : String → String) (resolve : String → String)
    (st : LState) : String × LState :=
  match st.configPath with
  | some cp =>
    if cp != "" then (resolve cp, { st with base := dirname cp })
    else (st.base ++ "/mup.js", st)
  | none => (st.base ++ "/mup.js", st)

/-- Load block of getConfig (lines 87-97): require the resolved file
and cache the value; a load failure terminates the process. -/
def loadConfigFile (dirname : String → String) (resolve : String → String)
    (requireFile : String → Option JVal) (st : LState) :
    Except Unit (JVal × LState) :=
  match requireFile (configFilePath dirname resolve st).1 with
  | some v => .ok (v, { (configFilePath dirname resolve st).2 with config := some v })
  | none => .error ()

/-- getConfig (lines 78-101): when the cached config is absent or
falsy, load and cache it; otherwise return the cache untouched. -/
def getConfig (dirname : String → String) (resolve : String → String)
    (requireFile : String → Option JVal) (st : LState) :
    Except Unit (JVal × LState) :=
  match st.config with
  | some v =>
    if v.truthy then .ok (v, st) else loadConfigFile dirname resolve requireFile st
  | none => loadConfigFile dirname resolve requireFile st

/-- Settings file path resolution of getSettings (lines 105-110). -/
def settingsFilePath (resolve : String → String) (st : LState) : String :=
  match st.settingsPath with
  | some sp => if sp != "" then resolve sp else st.base ++ "/settings.json"
  | none => st.base ++ "/settings.json"

/-- Load block of getSettings (lines 112-127): read the resolved file,
parse it as JSON and cache the parsed value; a read or parse failure
terminates the process. -/
def loadSettingsFile (resolve : String → String) (fsRead : String → Option String)
    (parseJson : String → Option JVal) (st : LState) :
    Except Unit (JVal × LState) :=
  match fsRead (settingsFilePath resolve st) with
  | none => .error ()
  | some contents =>
    match parseJson contents with
    | none => .error ()
    | some v => .ok (v, { st with settings := some v })

/-- getSettings (lines 103-131): when the cached settings value is
absent or falsy, load and cache it; otherwise return the cache
untouched. -/
def getSettings (resolve : String → String) (fsRead : String → Option String)
    (parseJson : String → Option JVal) (st : LState) :
    Except Unit (JVal × LState) :=
  match st.settings with
  | some v =>
    if v.truthy then .ok (v, st) else loadSettingsFile resolve fsRead parseJson st
  | none => loadSettingsFile resolve fsRead parseJson st

/-! ## hasMeteorPackage (mup-api.js, lines 37-52)

The versions file path expression this.getConfig().meteor.path is
evaluated both inside the guarded body and again inside the catch
handler while building the log message; a missing meteor section makes
that expression itself throw. -/

/-- Meteor section of the configuration, as read by hasMeteorPackage. -/
structure MeteorCfg where
  path : Option String := none
deriving Repr, DecidableEq

/-- Configuration as read by hasMeteorPackage: the meteor section may
be absent entirely. -/
structure AppConfig where
  meteor : Option MeteorCfg := none
deriving Repr, DecidableEq

/-- The expression resolvePath(getBasePath(), getConfig().meteor.path,
.meteor/versions) (lines 41 and 49): accessing path on an absent meteor
section throws, and an absent path value makes the path resolver throw. -/
def versionsPath (resolve3 : String → String → String → String)
    (base : String) (cfg : AppConfig) : Except Unit String :=
  match cfg.meteor with
  | none => .error ()
  | some m =>
    match m.path with
    | none => .error ()
    | some p => .ok (resolve3 base p ".meteor/versions")

/-- Helper for the package regular expression: does name followed by an
at sign occur right after some whitespace character. -/
def pkgAfterWs (pat : List Char) : List Char → Bool
  | [] => false
  | c :: rest => (c.isWhitespace && pat.isPrefixOf rest) || pkgAfterWs pat rest

/-- The regular expression test of line 45-46: name followed by an at
sign at the start of the contents or right after whitespace. -/
def testPkg (name contents : String) : Bool :=
  let pat := (name ++ "@").toList
  pat.isPrefixOf contents.toList || pkgAfterWs pat contents.toList

/-- hasMeteorPackage (lines 37-52): the guarded body reads the versions
file and applies the package test; on any failure the catch handler
logs a message that itself re-evaluates the versions file path - so the
handler returns false only when that expression still evaluates, and
throws out of the handler otherwise. -/
def hasMeteorPackage (resolve3 : String → String → String → String)
    (fsRead : String → Option String) (base : String) (cfg : AppConfig)
    (name : String) : Except Unit Bool :=
  let body : Except Unit Bool :=
    match versionsPath resolve3 base cfg with
    | .error e => .error e
    | .ok p =>
      match fsRead p with
      | none => .error ()
      | some contents => .ok (testPkg name contents)
  match body with
  | .ok b => .ok b
  | .error _ =>
    match versionsPath resolve3 base cfg with
    | .error e2 => .error e2
    | .ok _ => .ok false

/-! ## Theorems -/

theorem loadSession_pem_falsy (resolve : String → String) (fsRead : String → Option String)
    (fsExists : String → Bool) (sock : Option String) (name : String) (info : ServerInfo)
    (h : optTruthy info.pem = false) :
    loadSession resolve fsRead fsExists sock name info =
      afterPem fsExists sock name info (info.opts.getD {}) := by
  cases hp : info.pem with
  | none => simp [loadSession, hp]
  | some p =>
    rw [hp] at h
    simp only [optTruthy_some] at h
    simp [loadSession, hp, h]

/-- Claim C1: for every server entry, session resolution selects exactly one
credential by the fixed priority pem over password over agent: a set pem is
read eagerly and its contents embedded as the key credential (never the
password, even when both are set), and an unreadable pem is fatal naming the
server and the resolved path; otherwise a set password is used; otherwise the
agent socket is used exactly when the environment socket value is set and
that path exists on disk; when none apply, resolution fails fatally naming
the offending server. -/
theorem c1_credential_priority
    (resolve : String → String) (fsRead : String → Option String)
    (fsExists : String → Bool) (sock : Option String)
    (name : String) (info : ServerInfo) :
    (∀ p, info.pem = some p → p ≠ "" →
      ((∀ c, fsRead (resolve p) = some c →
        loadSession resolve fsRead fsExists sock name info =
          .ok { host := info.host,
                auth := { username := info.username, pem := some c, password := none },
                ssh := info.opts.getD {} })
      ∧ (fsRead (resolve p) = none →
        loadSession resolve fsRead fsExists sock name info =
          .error (.pemReadError name (resolve p)))))
  ∧ (optTruthy info.pem = false → ∀ pw, info.password = some pw → pw ≠ "" →
      loadSession resolve fsRead fsExists sock name info =
        .ok { host := info.host,
              auth := { username := info.username, pem := none, password := some pw },
              ssh := info.opts.getD {} })
  ∧ (optTruthy info.pem = false → optTruthy info.password = false →
      ∀ s, sock = some s → s ≠ "" → fsExists s = true →
      loadSession resolve fsRead fsExists sock name info =
        .ok { host := info.host,
              auth := { username := info.username, pem := none, password := none },
              ssh := { info.opts.getD {} with agent := some s } })
  ∧ (optTruthy info.pem = false → optTruthy info.password = false →
      agentUsable sock fsExists = false →
      loadSession resolve fsRead fsExists sock name info =
        .error (.noCredential name)) := by
  refine ⟨fun p hp hpne => ⟨fun c hc => ?_, fun hc => ?_⟩,
          fun hpemF pw hpw hpwne => ?_, fun hpemF hpwF s hs hsne hex => ?_,
          fun hpemF hpwF hagF => ?_⟩
  · simp [loadSession, hp, hpne, hc]
  · simp [loadSession, hp, hpne, hc]
  · rw [loadSession_pem_falsy resolve fsRead fsExists sock name info hpemF]
    simp [afterPem, hpw, hpwne]
  · rw [loadSession_pem_falsy resolve fsRead fsExists sock name info hpemF]
    simp [afterPem, hpwF, agentUsable, hs, hsne, hex]
  · rw [loadSession_pem_falsy resolve fsRead fsExists sock name info hpemF]
    simp [afterPem, hpwF, hagF]

theorem c1_credential_priority_witness :
    loadSession id (fun p => if p = "/k" then some "KEY" else none) (fun _ => false) none "web"
      { host := some "h", username := some "u", pem := some "/k", password := some "pw" } =
      .ok { host := some "h",
            auth := { username := some "u", pem := some "KEY", password := none },
            ssh := {} } :=
  ((c1_credential_priority id (fun p => if p = "/k" then some "KEY" else none)
      (fun _ => false) none "web"
      { host := some "h", username := some "u", pem := some "/k", password := some "pw" }).1
    "/k" rfl (by decide)).1 "KEY" (by decide)

theorem not_mem_baseBuildArgs (bo : BuildOptions)
    (h : bo.buildLocation ≠ "--mobile-settings") :
    "--mobile-settings" ∉ baseBuildArgs bo := by
  have h2 : ¬"--mobile-settings" = bo.buildLocation := fun hc => h hc.symm
  simp [baseBuildArgs, h2]

theorem not_mem_debugArgs (bo : BuildOptions) : "--mobile-settings" ∉ debugArgs bo := by
  unfold debugArgs
  split <;> simp

theorem not_mem_allowArgs (bo : BuildOptions) : "--mobile-settings" ∉ allowArgs bo := by
  unfold allowArgs
  split <;> simp

theorem not_mem_serverTargetArgs (bo : BuildOptions)
    (h : bo.server ≠ some "--mobile-settings") :
    "--mobile-settings" ∉ serverTargetArgs bo := by
  unfold serverTargetArgs
  split
  · rename_i s heq
    split
    · intro hmem
      rcases List.mem_cons.1 hmem with h1 | h1
      · exact absurd h1 (by decide)
      · rcases List.mem_singleton.1 h1 with rfl
        exact h (heq ▸ rfl)
    · simp
  · simp

/-- Claim C2 counterexample: a BuildOptions with serverOnly true and an
explicit mobileSettings object still produces the mobile-settings flag,
contradicting the claim that serverOnly true implies no such flag. -/
theorem c2_counterexample :
    ({ buildLocation := "/b", mobileSettings := some (.jobj []),
       serverOnly := true } : BuildOptions).serverOnly = true
  ∧ "--mobile-settings" ∈ buildArgs (fun _ => "SERIALIZED") "/app"
      { buildLocation := "/b", mobileSettings := some (.jobj []), serverOnly := true } :=
  ⟨rfl, by decide⟩

/-- Claim C2 (amended): with serverOnly true AND mobileSettings unset the
argument list has no mobile-settings flag (the two freak-collision
hypotheses only rule out a build location or target server literally named
like the flag); with neither serverOnly nor mobileSettings set the list
contains the flag followed by the settings file path under the app path;
with an explicit truthy mobileSettings object the list contains the flag
followed by its exact JSON serialization, regardless of serverOnly. -/
theorem c2_mobile_settings_amended (stringify : JVal → String) (appPath : String)
    (bo : BuildOptions) :
    (bo.serverOnly = true → bo.mobileSettings = none →
      bo.buildLocation ≠ "--mobile-settings" → bo.server ≠ some "--mobile-settings" →
      "--mobile-settings" ∉ buildArgs stringify appPath bo)
  ∧ (bo.serverOnly = false → bo.mobileSettings = none →
      ∃ pre suf, buildArgs stringify appPath bo =
        pre ++ "--mobile-settings" :: (appPath ++ "/settings.json") :: suf)
  ∧ (∀ v, bo.mobileSettings = some v → v.truthy = true →
      ∃ pre suf, buildArgs stringify appPath bo =
        pre ++ "--mobile-settings" :: stringify v :: suf) := by
  refine ⟨fun hso hms hbl hsv => ?_, fun hso hms => ?_, fun v hms htr => ?_⟩
  · have h1 := not_mem_baseBuildArgs bo hbl
    have h2 := not_mem_serverTargetArgs bo hsv
    have h3 := not_mem_debugArgs bo
    have h4 := not_mem_allowArgs bo
    simp only [buildArgs, List.mem_append, not_or]
    refine ⟨⟨⟨⟨⟨h1, h3⟩, ?_⟩, ?_⟩, h2⟩, h4⟩
    · simp [mobileSettingsArgs, hms]
    · simp only [serverOnlyArgs, hso, if_true]
      decide
  · refine ⟨baseBuildArgs bo ++ debugArgs bo ++ mobileSettingsArgs stringify bo,
            serverTargetArgs bo ++ allowArgs bo, ?_⟩
    simp [buildArgs, serverOnlyArgs, hso, msTruthy, hms, List.append_assoc]
  · refine ⟨baseBuildArgs bo ++ debugArgs bo,
            serverOnlyArgs appPath bo ++ serverTargetArgs bo ++ allowArgs bo, ?_⟩
    simp [buildArgs, mobileSettingsArgs, hms, htr, List.append_assoc]

theorem c2_mobile_settings_amended_witness :
    ∃ pre suf, buildArgs (fun _ => "SERIALIZED") "/app" ({ buildLocation := "/b" } : BuildOptions) =
      pre ++ "--mobile-settings" :: ("/app" ++ "/settings.json") :: suf :=
  (c2_mobile_settings_amended (fun _ => "SERIALIZED") "/app" { buildLocation := "/b" }).2.1 rfl rfl

theorem pickFromModule_cons (full : List (String × Session)) (n : String)
    (rest : List String) (acc : List (String × Session)) :
    pickFromModule full (n :: rest) acc =
      pickFromModule full rest
        (match alLookup full n with
        | some s => alInsert acc n s
        | none => acc) := rfl

theorem mem_alKeys_pickFromModule (full : List (String × Session)) (names : List String)
    (acc : List (String × Session)) (a : String) :
    a ∈ alKeys (pickFromModule full names acc) ↔
      a ∈ alKeys acc ∨ (a ∈ names ∧ (alLookup full a).isSome = true) := by
  induction names generalizing acc with
  | nil => simp [pickFromModule]
  | cons n rest ih =>
    rw [pickFromModule_cons, ih]
    cases hl : alLookup full n with
    | some s =>
      simp only [mem_alKeys_alInsert, List.mem_cons]
      have hs : (alLookup full n).isSome = true := by simp [hl]
      constructor
      · rintro ((rfl | h) | ⟨h1, h2⟩)
        · exact Or.inr ⟨Or.inl rfl, hs⟩
        · exact Or.inl h
        · exact Or.inr ⟨Or.inr h1, h2⟩
      · rintro (h | ⟨rfl | h1, h2⟩)
        · exact Or.inl (Or.inr h)
        · exact Or.inl (Or.inl rfl)
        · exact Or.inr ⟨h1, h2⟩
    | none =>
      simp only [List.mem_cons]
      constructor
      · rintro (h | ⟨h1, h2⟩)
        · exact Or.inl h
        · exact Or.inr ⟨Or.inr h1, h2⟩
      · rintro (h | ⟨rfl | h1, h2⟩)
        · exact Or.inl h
        · rw [hl] at h2
          exact absurd h2 (by decide)
        · exact Or.inr ⟨h1, h2⟩

theorem alLookup_pickFromModule (full : List (String × Session)) (names : List String)
    (acc : List (String × Session)) (a : String) (s : Session)
    (h : alLookup (pickFromModule full names acc) a = some s) :
    alLookup acc a = some s ∨ alLookup full a = some s := by
  induction names generalizing acc with
  | nil => exact Or.inl h
  | cons n rest ih =>
    rw [pickFromModule_cons] at h
    cases hl : alLookup full n with
    | some fs =>
      rw [hl] at h
      rcases ih _ h with h1 | h1
      · rw [alLookup_alInsert] at h1
        by_cases hn : n = a
        · subst hn
          rw [if_pos rfl] at h1
          exact Or.inr (h1 ▸ hl)
        · rw [if_neg hn] at h1
          exact Or.inl h1
      · exact Or.inr h1
    | none =>
      rw [hl] at h
      exact ih _ h

theorem nodup_alKeys_pickFromModule (full : List (String × Session)) (names : List String)
    (acc : List (String × Session)) (h : (alKeys acc).Nodup) :
    (alKeys (pickFromModule full names acc)).Nodup := by
  induction names generalizing acc with
  | nil => exact h
  | cons n rest ih =>
    rw [pickFromModule_cons]
    cases hl : alLookup full n with
    | some s => exact ih _ (nodup_alKeys_alInsert acc n s h)
    | none => exact ih _ h

theorem mem_alKeys_pick_foldl (cfg : Config) (full : List (String × Session))
    (modules : List String) (acc : List (String × Session)) (a : String) :
    a ∈ alKeys (modules.foldl (pickStep cfg full) acc) ↔
      a ∈ alKeys acc ∨ ∃ m, m ∈ modules ∧ ∃ mc, alLookup cfg.sections m = some mc ∧
        a ∈ mc.servers ∧ (alLookup full a).isSome = true := by
  induction modules generalizing acc with
  | nil => simp
  | cons m rest ih =>
    rw [List.foldl_cons, ih]
    cases hm : alLookup cfg.sections m with
    | none =>
      simp only [pickStep, hm, List.mem_cons]
      constructor
      · rintro (h | ⟨m2, h1, h2⟩)
        · exact Or.inl h
        · exact Or.inr ⟨m2, Or.inr h1, h2⟩
      · rintro (h | ⟨m2, rfl | h1, h2⟩)
        · exact Or.inl h
        · obtain ⟨mc, hmc, _⟩ := h2
          rw [hm] at hmc
          cases hmc
        · exact Or.inr ⟨m2, h1, h2⟩
    | some mc =>
      simp only [pickStep, hm, mem_alKeys_pickFromModule, List.mem_cons]
      constructor
      · rintro ((h | ⟨h1, h2⟩) | ⟨m2, h1, h2⟩)
        · exact Or.inl h
        · exact Or.inr ⟨m, Or.inl rfl, mc, hm, h1, h2⟩
        · exact Or.inr ⟨m2, Or.inr h1, h2⟩
      · rintro (h | ⟨m2, rfl | h1, h2⟩)
        · exact Or.inl (Or.inl h)
        · obtain ⟨mc2, hmc2, h3, h4⟩ := h2
          rw [hm] at hmc2
          cases hmc2
          exact Or.inl (Or.inr ⟨h3, h4⟩)
        · exact Or.inr ⟨m2, h1, h2⟩

theorem alLookup_pick_foldl (cfg : Config) (full : List (String × Session))
    (modules : List String) (acc : List (String × Session)) (a : String) (s : Session)
    (h : alLookup (modules.foldl (pickStep cfg full) acc) a = some s) :
    alLookup acc a = some s ∨ alLookup full a = some s := by
  induction modules generalizing acc with
  | nil => exact Or.inl h
  | cons m rest ih =>
    rw [List.foldl_cons] at h
    rcases ih _ h with h1 | h1
    · unfold pickStep at h1
      cases hm : alLookup cfg.sections m with
      | none =>
        rw [hm] at h1
        exact Or.inl h1
      | some mc =>
        rw [hm] at h1
        exact alLookup_pickFromModule full mc.servers acc a s h1
    · exact Or.inr h1

theorem nodup_alKeys_pick_foldl (cfg : Config) (full : List (String × Session))
    (modules : List String) (acc : List (String × Session))
    (h : (alKeys acc).Nodup) :
    (alKeys (modules.foldl (pickStep cfg full) acc)).Nodup := by
  induction modules generalizing acc with
  | nil => exact h
  | cons m rest ih =>
    rw [List.foldl_cons]
    refine ih _ ?_
    unfold pickStep
    cases hm : alLookup cfg.sections m with
    | none => exact h
    | some mc => exact nodup_alKeys_pickFromModule full mc.servers acc h

theorem pick_foldl_unconfigured (cfg : Config) (full : List (String × Session))
    (modules : List String) (acc : List (String × Session))
    (h : ∀ m ∈ modules, alLookup cfg.sections m = none) :
    modules.foldl (pickStep cfg full) acc = acc := by
  induction modules generalizing acc with
  | nil => rfl
  | cons m rest ih =>
    rw [List.foldl_cons]
    have hm := h m (List.mem_cons_self m rest)
    rw [show pickStep cfg full acc m = acc from by simp [pickStep, hm]]
    exact ih acc (fun m2 h2 => h m2 (List.mem_cons_of_mem m h2))

/-- Claim C3: getSessions enumerates the values of the module-scoped
mapping computed by pickSessions; the key set of that mapping is exactly
the union, over every requested module that has a config section, of the
server names referenced by that module that also exist in the full
session map; every value is the corresponding session of the full map;
the keys are deduplicated; and a request naming only unconfigured
modules yields the empty mapping. -/
theorem c3_module_scoping (cfg : Config) (full : List (String × Session))
    (modules : List String) :
    getSessions cfg full modules = (pickSessions cfg full modules).map Prod.snd
  ∧ (∀ a, a ∈ alKeys (pickSessions cfg full modules) ↔
      ∃ m, m ∈ modules ∧ ∃ mc, alLookup cfg.sections m = some mc ∧
        a ∈ mc.servers ∧ (alLookup full a).isSome = true)
  ∧ (∀ a s, alLookup (pickSessions cfg full modules) a = some s →
      alLookup full a = some s)
  ∧ (alKeys (pickSessions cfg full modules)).Nodup
  ∧ ((∀ m ∈ modules, alLookup cfg.sections m = none) →
      pickSessions cfg full modules = []) := by
  refine ⟨rfl, fun a => ?_, fun a s h => ?_, ?_, fun h => ?_⟩
  · rw [pickSessions, mem_alKeys_pick_foldl]
    simp
  · rcases alLookup_pick_foldl cfg full modules [] a s h with h1 | h1
    · cases h1
    · exact h1
  · exact nodup_alKeys_pick_foldl cfg full modules [] (by simp)
  · exact pick_foldl_unconfigured cfg full modules [] h

theorem c3_module_scoping_witness :
    (∀ m ∈ ["analytics"],
      alLookup (Config.mk [] [("meteor", ModuleConfig.mk ["A"])]).sections m = none)
  ∧ pickSessions (Config.mk [] [("meteor", ModuleConfig.mk ["A"])])
      [("A", { host := some "a", auth := {}, ssh := {} })] ["analytics"] = [] :=
  ⟨by decide,
   (c3_module_scoping (Config.mk [] [("meteor", ModuleConfig.mk ["A"])])
      [("A", { host := some "a", auth := {}, ssh := {} })] ["analytics"]).2.2.2.2 (by decide)⟩

/-- Claim C4: a withSessions call on a fresh base resolver performs the
one-time lazy load (caching the full session map on the base) and returns a
scoped view that differs from the base state only in its session map, which
holds the module-scoped subset; once the base is loaded, every further
withSessions call leaves the base state exactly unchanged; and any sequence
of withSessions calls on the loaded base leaves the base state equal to its
value after the first lazy load while producing one independent scoped view
per requested module list. -/
theorem c4_scoped_view (resolve : String → String) (fsRead : String → Option String)
    (fsExists : String → Bool) (sock : Option String) (st : MupState)
    (full : List (String × Session)) (hfresh : st.sessions = none)
    (hload : loadSessions resolve fsRead fsExists sock st.config.servers = .ok full) :
    (∀ ms, withSessions resolve fsRead fsExists sock st ms =
      .ok ({ st with sessions := some full },
           { st with sessions := some (pickSessions st.config full ms) }))
  ∧ (∀ ms, withSessions resolve fsRead fsExists sock { st with sessions := some full } ms =
      .ok ({ st with sessions := some full },
           { st with sessions := some (pickSessions st.config full ms) }))
  ∧ (∀ mss, runSeq resolve fsRead fsExists sock { st with sessions := some full } mss =
      .ok ({ st with sessions := some full },
           mss.map fun ms => { st with sessions := some (pickSessions st.config full ms) }))
  ∧ (∀ ms mss, runSeq resolve fsRead fsExists sock st (ms :: mss) =
      .ok ({ st with sessions := some full },
           (ms :: mss).map fun ms2 =>
             { st with sessions := some (pickSessions st.config full ms2) })) := by
  have h1 : ∀ ms, withSessions resolve fsRead fsExists sock st ms =
      .ok ({ st with sessions := some full },
           { st with sessions := some (pickSessions st.config full ms) }) := by
    intro ms
    simp [withSessions, ensureSessions, hfresh, hload]
  have h2 : ∀ ms, withSessions resolve fsRead fsExists sock
        { st with sessions := some full } ms =
      .ok ({ st with sessions := some full },
           { st with sessions := some (pickSessions st.config full ms) }) := by
    intro ms
    simp [withSessions, ensureSessions]
  have h3 : ∀ mss, runSeq resolve fsRead fsExists sock
        { st with sessions := some full } mss =
      .ok ({ st with sessions := some full },
           mss.map fun ms => { st with sessions := some (pickSessions st.config full ms) }) := by
    intro mss
    induction mss with
    | nil => simp [runSeq]
    | cons ms rest ih => simp [runSeq, h2, ih]
  exact ⟨h1, h2, h3, fun ms mss => by simp [runSeq, h1, h3]⟩

/-- Concrete configuration used by the C4 witness: one server with a
password credential and one module section referencing it. -/
def cfgW : Config :=
  Config.mk [("a", { host := some "h", username := some "u", password := some "pw" })]
    [("meteor", ModuleConfig.mk ["a"])]

/-- Concrete fresh resolver state used by the C4 witness. -/
def stW : MupState := { base := "/app", args := [], config := cfgW }

/-- Concrete full session map used by the C4 witness. -/
def fullW : List (String × Session) :=
  [("a", { host := some "h",
           auth := { username := some "u", password := some "pw" },
           ssh := {} })]

theorem c4_scoped_view_witness :
    withSessions id (fun _ => none) (fun _ => false) none stW ["meteor"] =
      .ok ({ stW with sessions := some fullW },
           { stW with sessions := some (pickSessions stW.config fullW ["meteor"]) }) :=
  (c4_scoped_view id (fun _ => none) (fun _ => false) none stW fullW rfl rfl).1
    ["meteor"]

theorem buildStep_exited (bo : BuildOptions) (st : BuildRun) (ev : ProcEvent)
    (h : st.exitedWith.isSome = true) : buildStep bo st ev = st := by
  simp [buildStep, h]

theorem foldl_buildStep_exited (bo : BuildOptions) (evs : List ProcEvent) (st : BuildRun)
    (h : st.exitedWith.isSome = true) : evs.foldl (buildStep bo) st = st := by
  induction evs with
  | nil => rfl
  | cons e rest ih =>
    rw [List.foldl_cons, buildStep_exited bo st e h]
    exact ih

theorem buildStep_spawn (bo : BuildOptions) (st : BuildRun) (m : String)
    (hex : st.exitedWith = none) :
    buildStep bo st (.spawnError m) = { st with errorLogs := st.errorLogs + 1 } := by
  simp [buildStep, hex]

theorem buildStep_close (bo : BuildOptions) (st : BuildRun) (c : Int)
    (hex : st.exitedWith = none) :
    buildStep bo st (.close c) =
      if c = 0 then { st with archiveCalledOn := some bo.buildLocation }
      else { st with exitedWith := some 1 } := by
  simp [buildStep, hex]

theorem buildStep_archiveDone_frame (bo : BuildOptions) (st : BuildRun) (err : Option String) :
    (buildStep bo st (.archiveDone err)).archiveCalledOn = st.archiveCalledOn := by
  cases hx : st.exitedWith with
  | some v =>
    rw [buildStep_exited bo st _ (by rw [hx]; rfl)]
  | none =>
    by_cases hg : st.archiveCalledOn.isSome = true ∧ st.promise = PromiseState.pending
    · cases err with
      | none =>
        have hst : buildStep bo st (.archiveDone none) =
            { st with promise := .resolvedOk } := by
          simp [buildStep, hx, hg]
        rw [hst]
      | some m =>
        have hst : buildStep bo st (.archiveDone (some m)) =
            { st with promise := .rejected m } := by
          simp [buildStep, hx, hg]
        rw [hst]
    · have hst : buildStep bo st (.archiveDone err) = st := by
        simp [buildStep, hx, hg]
      rw [hst]

theorem foldl_spawn_only (bo : BuildOptions) (evs : List ProcEvent) (st : BuildRun)
    (hevs : ∀ e ∈ evs, ∃ m, e = ProcEvent.spawnError m) (h : st.exitedWith = none) :
    evs.foldl (buildStep bo) st = { st with errorLogs := st.errorLogs + evs.length } := by
  induction evs generalizing st with
  | nil => simp
  | cons e rest ih =>
    obtain ⟨m, rfl⟩ := hevs e (List.mem_cons_self e rest)
    rw [List.foldl_cons, buildStep_spawn bo st m h,
      ih { st with errorLogs := st.errorLogs + 1 }
        (fun e2 h2 => hevs e2 (List.mem_cons_of_mem _ h2)) h]
    show ({ st with errorLogs := st.errorLogs + 1 + rest.length } : BuildRun) =
      { st with errorLogs := st.errorLogs + (rest.length + 1) }
    rw [show st.errorLogs + 1 + rest.length = st.errorLogs + (rest.length + 1) from by omega]

theorem buildStep_archive_origin (bo : BuildOptions) (st : BuildRun) (ev : ProcEvent)
    (h : (buildStep bo st ev).archiveCalledOn.isSome = true) :
    st.archiveCalledOn.isSome = true ∨ ev = ProcEvent.close 0 := by
  cases hx : st.exitedWith with
  | some v =>
    rw [buildStep_exited bo st ev (by rw [hx]; rfl)] at h
    exact Or.inl h
  | none =>
    cases ev with
    | spawnError m =>
      rw [buildStep_spawn bo st m hx] at h
      exact Or.inl h
    | close c =>
      rcases Classical.em (c = 0) with hc | hc
      · exact Or.inr (by rw [hc])
      · rw [buildStep_close bo st c hx, if_neg hc] at h
        exact Or.inl h
    | archiveDone err =>
      rw [buildStep_archiveDone_frame bo st err] at h
      exact Or.inl h

theorem close0_of_archive (bo : BuildOptions) (evs : List ProcEvent) (st : BuildRun)
    (h : (evs.foldl (buildStep bo) st).archiveCalledOn.isSome = true) :
    st.archiveCalledOn.isSome = true ∨ ProcEvent.close 0 ∈ evs := by
  induction evs generalizing st with
  | nil => exact Or.inl h
  | cons e rest ih =>
    rw [List.foldl_cons] at h
    rcases ih _ h with h1 | h1
    · rcases buildStep_archive_origin bo st e h1 with h2 | h2
      · exact Or.inl h2
      · refine Or.inr ?_
        rw [← h2]
        exact List.mem_cons_self e rest
    · exact Or.inr (List.mem_cons_of_mem e h1)

theorem promise_requires_archive_step (bo : BuildOptions) (st : BuildRun) (ev : ProcEvent)
    (h : st.promise = PromiseState.pending ∨ st.archiveCalledOn.isSome = true) :
    (buildStep bo st ev).promise = PromiseState.pending ∨
      (buildStep bo st ev).archiveCalledOn.isSome = true := by
  cases hx : st.exitedWith with
  | some v =>
    rw [buildStep_exited bo st ev (by rw [hx]; rfl)]
    exact h
  | none =>
    cases ev with
    | spawnError m =>
      rw [buildStep_spawn bo st m hx]
      exact h
    | close c =>
      rw [buildStep_close bo st c hx]
      rcases Classical.em (c = 0) with hc | hc
      · rw [if_pos hc]
        exact Or.inr rfl
      · rw [if_neg hc]
        exact h
    | archiveDone err =>
      by_cases hg : st.archiveCalledOn.isSome = true ∧ st.promise = PromiseState.pending
      · cases err with
        | none =>
          have hst : buildStep bo st (.archiveDone none) =
              { st with promise := .resolvedOk } := by
            simp [buildStep, hx, hg]
          rw [hst]
          exact Or.inr hg.1
        | some m =>
          have hst : buildStep bo st (.archiveDone (some m)) =
              { st with promise := .rejected m } := by
            simp [buildStep, hx, hg]
          rw [hst]
          exact Or.inr hg.1
      · have hst : buildStep bo st (.archiveDone err) = st := by
          simp [buildStep, hx, hg]
        rw [hst]
        exact h

theorem promise_requires_archive (bo : BuildOptions) (evs : List ProcEvent) (st : BuildRun)
    (h : st.promise = PromiseState.pending ∨ st.archiveCalledOn.isSome = true) :
    (evs.foldl (buildStep bo) st).promise = PromiseState.pending ∨
      (evs.foldl (buildStep bo) st).archiveCalledOn.isSome = true := by
  induction evs generalizing st with
  | nil => exact h
  | cons e rest ih =>
    rw [List.foldl_cons]
    exact ih _ (promise_requires_archive_step bo st e h)

/-- Claim C5: only the close event of the build subprocess, keyed on its
exit code, drives resolution: a run of spawn errors alone only logs them
(the archiver is not invoked, the process does not exit, and the promise
stays pending); a close with exit code 0 after such a run invokes the
archiver on buildOptions.buildLocation; a close with any nonzero exit
code terminates the process fatally and every later event is dead, so
the archiver is never invoked and the promise never settles; and over
arbitrary event lists the archiver is invoked only when a close with
code 0 occurred, and the promise settles only after the archiver was
invoked. -/
theorem c5_close_event_drives (bo : BuildOptions) (errs rest : List ProcEvent) (c : Int)
    (herrs : ∀ e ∈ errs, ∃ m, e = ProcEvent.spawnError m) :
    buildRun bo errs = { errorLogs := errs.length }
  ∧ buildRun bo (errs ++ [ProcEvent.close 0]) =
      { errorLogs := errs.length, archiveCalledOn := some bo.buildLocation }
  ∧ (c ≠ 0 → buildRun bo (errs ++ ProcEvent.close c :: rest) =
      { errorLogs := errs.length, exitedWith := some 1 })
  ∧ (∀ evs, (buildRun bo evs).archiveCalledOn.isSome = true → ProcEvent.close 0 ∈ evs)
  ∧ (∀ evs, (buildRun bo evs).promise ≠ PromiseState.pending →
      (buildRun bo evs).archiveCalledOn.isSome = true) := by
  have h1 : buildRun bo errs = { errorLogs := errs.length } := by
    have h0 := foldl_spawn_only bo errs {} herrs rfl
    simpa [buildRun] using h0
  refine ⟨h1, ?_, ?_, ?_, ?_⟩
  · rw [buildRun, List.foldl_append]
    rw [show List.foldl (buildStep bo) {} errs = ({ errorLogs := errs.length } : BuildRun)
      from h1]
    rw [List.foldl_cons, buildStep_close bo { errorLogs := errs.length } 0 rfl, if_pos rfl]
    rfl
  · intro hc
    rw [buildRun, List.foldl_append]
    rw [show List.foldl (buildStep bo) {} errs = ({ errorLogs := errs.length } : BuildRun)
      from h1]
    rw [List.foldl_cons, buildStep_close bo { errorLogs := errs.length } c rfl, if_neg hc]
    exact foldl_buildStep_exited bo rest _ rfl
  · intro evs h
    rcases close0_of_archive bo evs {} h with h2 | h2
    · exact absurd h2 (by simp)
    · exact h2
  · intro evs h
    exact (promise_requires_archive bo evs {} (Or.inl rfl)).resolve_left h

theorem c5_close_event_drives_witness :
    buildRun { buildLocation := "/b" }
      ([ProcEvent.spawnError "spawn failed"] ++ ProcEvent.close 1 :: []) =
      { errorLogs := 1, exitedWith := some 1 } :=
  (c5_close_event_drives { buildLocation := "/b" } [ProcEvent.spawnError "spawn failed"] [] 1
    (by
      intro e he
      rw [List.mem_singleton] at he
      exact ⟨"spawn failed", he⟩)).2.2.1 (by decide)

theorem archiveStep_cb_stable (st : ArchiveRun) (ev : ArchiveEvent)
    (h : st.cb.fired = true) : (archiveStep st ev).cb = st.cb := by
  cases ev with
  | streamClose =>
    by_cases hc : st.closeConsumed = true
    · simp [archiveStep, hc]
    · simp [archiveStep, hc, onceCall, h]
  | encoderError m =>
    by_cases hc : st.errorConsumed = true
    · simp [archiveStep, hc]
    · simp [archiveStep, hc, onceCall, h]

theorem foldl_archive_cb_stable (evs : List ArchiveEvent) (st : ArchiveRun)
    (h : st.cb.fired = true) : (evs.foldl archiveStep st).cb = st.cb := by
  induction evs generalizing st with
  | nil => rfl
  | cons e rest ih =>
    rw [List.foldl_cons]
    have hstep := archiveStep_cb_stable st e h
    rw [ih (archiveStep st e) (by rw [hstep]; exact h), hstep]

theorem archiveRun_cons_cb (e : ArchiveEvent) (rest : List ArchiveEvent) :
    (archiveRun (e :: rest)).cb = (archiveStep {} e).cb := by
  rw [archiveRun, List.foldl_cons]
  exact foldl_archive_cb_stable rest (archiveStep {} e)
    (by cases e <;> simp [archiveStep, onceCall])

/-- Claim C6: for every interleaving of the destination stream close
signal and the encoder error event, the once-wrapped completion callback
fires exactly once: for any nonempty event list the underlying callback
is invoked exactly once, for any event list at all it is invoked at most
once, and only the first event takes effect - an encoder error occurring
first delivers that error to the callback while a stream close occurring
first delivers success. -/
theorem c6_archive_exactly_once (evs : List ArchiveEvent) (hne : evs ≠ []) :
    (archiveRun evs).cb.calls = 1
  ∧ (archiveRun evs).cb.fired = true
  ∧ (∀ evs2, (archiveRun evs2).cb.calls ≤ 1)
  ∧ (∀ m rest, evs = ArchiveEvent.encoderError m :: rest →
      (archiveRun evs).cb.firstArg = some (some m))
  ∧ (∀ rest, evs = ArchiveEvent.streamClose :: rest →
      (archiveRun evs).cb.firstArg = some none) := by
  obtain ⟨e, rest, rfl⟩ : ∃ e rest, evs = e :: rest := by
    cases evs with
    | nil => exact absurd rfl hne
    | cons e rest => exact ⟨e, rest, rfl⟩
  refine ⟨?_, ?_, ?_, ?_, ?_⟩
  · rw [archiveRun_cons_cb]
    cases e <;> rfl
  · rw [archiveRun_cons_cb]
    cases e <;> rfl
  · intro evs2
    cases evs2 with
    | nil => decide
    | cons e2 rest2 =>
      rw [archiveRun_cons_cb]
      cases e2 <;> exact Nat.le_refl 1
  · intro m rest2 heq
    injection heq with he hr
    subst he
    rw [archiveRun_cons_cb]
    rfl
  · intro rest2 heq
    injection heq with he hr
    subst he
    rw [archiveRun_cons_cb]
    rfl

theorem c6_archive_exactly_once_witness :
    (archiveRun [ArchiveEvent.encoderError "disk full", ArchiveEvent.streamClose]).cb.calls = 1
  ∧ (archiveRun [ArchiveEvent.encoderError "disk full", ArchiveEvent.streamClose]).cb.firstArg =
      some (some "disk full") :=
  ⟨(c6_archive_exactly_once [ArchiveEvent.encoderError "disk full", ArchiveEvent.streamClose]
      (by decide)).1,
   ((c6_archive_exactly_once [ArchiveEvent.encoderError "disk full", ArchiveEvent.streamClose]
      (by decide)).2.2.2.1 "disk full" [ArchiveEvent.streamClose] rfl)⟩

/-- Claim C7 (evaluation of the code at the failing input): the pem path
keys.pub/id_rsa.pub ends in the reserved public-key extension, yet
validateServers reports no problem at all for its entry, because the
first-occurrence index of .pub (4) differs from length minus 4 (15);
the check only fires when the FIRST occurrence of .pub sits at the end,
as on id_rsa.pub, where exactly one problem at servers.web2.pem is
reported. -/
theorem c7_pub_pem_check_eval :
    ".pub".toList.isSuffixOf "keys.pub/id_rsa.pub".toList = true
  ∧ validateServers
      [("web1", { host := some "1.2.3.4", username := some "root",
                  pem := some "keys.pub/id_rsa.pub" })] = []
  ∧ (validateServers
      [("web2", { host := some "h", username := some "u", pem := some "id_rsa.pub" })]).map
        Problem.path = ["servers.web2.pem"] :=
  ⟨by decide, by decide, by decide⟩

/-- Claim C8 counterexample: on a Windows-like platform with a configured
buildOptions.executable, the spawned argument list never contains the
configured executable name anywhere before the unchanged argument list
(or at all): the code prepends the literal name meteor instead. -/
theorem c8_counterexample :
    ¬ ∃ pre suf, (buildCommand "win32" (some "C:cmd") (fun _ => "X") "/app"
        { buildLocation := "/b", executable := some "custom-meteor" }).2 =
      pre ++ "custom-meteor" :: suf := by
  rintro ⟨pre, suf, h⟩
  have hm : "custom-meteor" ∈ (buildCommand "win32" (some "C:cmd") (fun _ => "X") "/app"
      { buildLocation := "/b", executable := some "custom-meteor" }).2 := by
    rw [h]
    exact List.mem_append_right pre (List.mem_cons_self _ _)
  exact absurd hm (by decide)

/-- Claim C8 (amended): on a Windows-like host (platform name with the
win prefix), buildMeteorApp swaps the executable for the comspec
environment value (falling back to cmd.exe) and prepends /c and the
literal default executable name meteor - ignoring any configured
buildOptions.executable - ahead of the otherwise-unchanged argument
list. -/
theorem c8_windows_shell_amended (platform : String) (comspec : Option String)
    (stringify : JVal → String) (appPath : String) (bo : BuildOptions)
    (hwin : isWin platform = true) :
    buildCommand platform comspec stringify appPath bo =
      (comspecOr comspec, "/c" :: "meteor" :: buildArgs stringify appPath bo) := by
  simp [buildCommand, hwin]

theorem c8_windows_shell_amended_witness :
    buildCommand "win32" none (fun _ => "X") "/app" ({ buildLocation := "/b" } : BuildOptions) =
      (comspecOr none, "/c" :: "meteor" :: buildArgs (fun _ => "X") "/app"
        { buildLocation := "/b" }) :=
  c8_windows_shell_amended "win32" none (fun _ => "X") "/app" { buildLocation := "/b" }
    (by decide)

/-- Concrete settings file system for the C9 theorems: first read yields
the JSON document 0, the replaced disk contents yield the JSON
document 1. -/
def settingsFs1 : String → Option String :=
  fun p => if p = "/s.json" then some "ZERO" else none

/-- Concrete replaced settings file system for the C9 theorems. -/
def settingsFs2 : String → Option String :=
  fun p => if p = "/s.json" then some "ONE" else none

/-- Concrete JSON parser for the C9 theorems. -/
def settingsParse : String → Option JVal :=
  fun c => if c = "ZERO" then some (.jnum 0) else if c = "ONE" then some (.jnum 1) else none

/-- Concrete loader state for the C9 theorems. -/
def lSt0 : LState := { base := "/app", settingsPath := some "/s.json" }

/-- Claim C9 counterexample: the memoization guard is a truthiness test,
so a settings file whose JSON document is the falsy value 0 is loaded
successfully by the first call, yet a second call re-reads the disk and
returns the new value 1 of the changed file - not the first call's
value. -/
theorem c9_counterexample :
    getSettings id settingsFs1 settingsParse lSt0 =
      .ok (.jnum 0, { lSt0 with settings := some (.jnum 0) })
  ∧ getSettings id settingsFs2 settingsParse { lSt0 with settings := some (.jnum 0) } =
      .ok (.jnum 1, { lSt0 with settings := some (.jnum 1) })
  ∧ JVal.jnum 1 ≠ JVal.jnum 0 :=
  ⟨rfl, rfl, by simp⟩

theorem loadConfigFile_ok_cache (dirname resolve : String → String)
    (requireFile : String → Option JVal) (st : LState) (v : JVal) (st1 : LState)
    (h : loadConfigFile dirname resolve requireFile st = .ok (v, st1)) :
    st1.config = some v := by
  unfold loadConfigFile at h
  split at h
  · injection h with h2
    injection h2 with h3 h4
    subst h3
    subst h4
    rfl
  · cases h

theorem loadSettingsFile_ok_cache (resolve : String → String)
    (fsRead : String → Option String) (parseJson : String → Option JVal)
    (st : LState) (v : JVal) (st1 : LState)
    (h : loadSettingsFile resolve fsRead parseJson st = .ok (v, st1)) :
    st1.settings = some v := by
  unfold loadSettingsFile at h
  split at h
  · cases h
  · split at h
    · cases h
    · injection h with h2
      injection h2 with h3 h4
      subst h3
      subst h4
      rfl

theorem getConfig_ok_cache (dirname resolve : String → String)
    (requireFile : String → Option JVal) (st : LState) (v : JVal) (st1 : LState)
    (h : getConfig dirname resolve requireFile st = .ok (v, st1)) :
    st1.config = some v := by
  unfold getConfig at h
  split at h
  · split at h
    · rename_i v0 heq ht
      injection h with h2
      injection h2 with h3 h4
      subst h3
      subst h4
      exact heq
    · exact loadConfigFile_ok_cache dirname resolve requireFile st v st1 h
  · exact loadConfigFile_ok_cache dirname resolve requireFile st v st1 h

theorem getSettings_ok_cache (resolve : String → String) (fsRead : String → Option String)
    (parseJson : String → Option JVal) (st : LState) (v : JVal) (st1 : LState)
    (h : getSettings resolve fsRead parseJson st = .ok (v, st1)) :
    st1.settings = some v := by
  unfold getSettings at h
  split at h
  · split at h
    · rename_i v0 heq ht
      injection h with h2
      injection h2 with h3 h4
      subst h3
      subst h4
      exact heq
    · exact loadSettingsFile_ok_cache resolve fsRead parseJson st v st1 h
  · exact loadSettingsFile_ok_cache resolve fsRead parseJson st v st1 h

theorem getConfig_cached (dirname resolve : String → String)
    (requireFile : String → Option JVal) (st : LState) (v : JVal)
    (hc : st.config = some v) (ht : v.truthy = true) :
    getConfig dirname resolve requireFile st = .ok (v, st) := by
  unfold getConfig
  split
  · rename_i v0 heq
    rw [hc] at heq
    injection heq with h2
    subst h2
    rw [if_pos ht]
  · rename_i heq
    rw [hc] at heq
    cases heq

theorem getSettings_cached (resolve : String → String) (fsRead : String → Option String)
    (parseJson : String → Option JVal) (st : LState) (v : JVal)
    (hc : st.settings = some v) (ht : v.truthy = true) :
    getSettings resolve fsRead parseJson st = .ok (v, st) := by
  unfold getSettings
  split
  · rename_i v0 heq
    rw [hc] at heq
    injection heq with h2
    subst h2
    rw [if_pos ht]
  · rename_i heq
    rw [hc] at heq
    cases heq

/-- Claim C9 (amended): getConfig and getSettings memoize whenever the
first loaded value is truthy: after a first call returning a truthy
value, every subsequent call returns the same cached value with the
state unchanged and is independent of the disk (any directory resolver,
module loader, file reader or JSON parser gives the same result); when
the first loaded value is falsy (such as the JSON document 0), the
truthiness guard fails and a later call re-reads the disk. -/
theorem c9_memoize_amended (dirname resolve : String → String)
    (requireFile : String → Option JVal) (resolve2 : String → String)
    (fsRead : String → Option String) (parseJson : String → Option JVal)
    (st : LState) :
    (∀ v st1, getConfig dirname resolve requireFile st = .ok (v, st1) →
      v.truthy = true → ∀ (dirname2 resolveB : String → String)
        (requireFile2 : String → Option JVal),
        getConfig dirname2 resolveB requireFile2 st1 = .ok (v, st1))
  ∧ (∀ v st1, getSettings resolve2 fsRead parseJson st = .ok (v, st1) →
      v.truthy = true → ∀ (resolveC : String → String)
        (fsRead2 : String → Option String) (parseJson2 : String → Option JVal),
        getSettings resolveC fsRead2 parseJson2 st1 = .ok (v, st1)) := by
  constructor
  · intro v st1 h ht dirname2 resolveB requireFile2
    exact getConfig_cached dirname2 resolveB requireFile2 st1 v
      (getConfig_ok_cache dirname resolve requireFile st v st1 h) ht
  · intro v st1 h ht resolveC fsRead2 parseJson2
    exact getSettings_cached resolveC fsRead2 parseJson2 st1 v
      (getSettings_ok_cache resolve2 fsRead parseJson st v st1 h) ht

theorem c9_memoize_amended_witness :
    getSettings id settingsFs1 settingsParse { lSt0 with settings := some (.jnum 1) } =
      .ok (.jnum 1, { lSt0 with settings := some (.jnum 1) }) :=
  (c9_memoize_amended id id (fun _ => none) id settingsFs2 settingsParse lSt0).2
    (.jnum 1) { lSt0 with settings := some (.jnum 1) } rfl rfl id settingsFs1 settingsParse

/-- Claim C10 (evaluation of the code at the failing input): on a
configuration without a meteor section, hasMeteorPackage raises instead
of returning false, because the catch handler rebuilds the versions file
path for its log message and that expression itself throws; with a
meteor section present and an unreadable versions file, it returns
false as the catch handler intends. -/
theorem c10_missing_meteor_section_raises :
    hasMeteorPackage (fun a b c => a ++ "/" ++ b ++ "/" ++ c) (fun _ => none) "/app"
      { meteor := none } "kadira" = .error ()
  ∧ hasMeteorPackage (fun a b c => a ++ "/" ++ b ++ "/" ++ c) (fun _ => none) "/app"
      { meteor := some { path := some "app" } } "kadira" = .ok false :=
  ⟨rfl, rfl⟩

end Mup
